import Mathlib

set_option maxHeartbeats 1000000

/-!
Shallow embedding of the checksum-verification core of the hash1 repository
(packages `hashcs` and `cmd`), covering:

* the algorithm registry (`Names`, ranks, display names from `crypto.Hash.String`),
* `hashcs.CalculateChecksum` (hash.go), with the external file-reading capability
  `local.Checksum` modelled by an oracle `Option (Fin NumHash → List Char)`
  giving each algorithm's hex digest of the file (`none` = I/O / path failure),
* `parseHashChecksumFlags`, `notLowerHexString` and `verifyChecksum` (verify.go).

Go strings are modelled as `List Char` (Go iterates runes; all data relevant
here is ASCII).  Character comparisons are by code point, as in Go.
-/

/-- Number of supported hash algorithms (`hashcs.NumHash`). -/
def NumHash : Nat := 18

/-- Display names of the supported algorithms in registration order:
`Hashes[i].String()` for the table `hashcs.Hashes` (values of Go's
`crypto.Hash.String`, confirmed by the lowercase canonical names in
`hashcs.Names`). -/
def hashDisplayNames : List (List Char) :=
  [("MD4".toList), ("MD5".toList), ("SHA-1".toList), ("SHA-224".toList), ("SHA-256".toList),
   ("SHA-384".toList), ("SHA-512".toList), ("SHA-512/224".toList), ("SHA-512/256".toList),
   ("RIPEMD-160".toList), ("SHA3-224".toList), ("SHA3-256".toList), ("SHA3-384".toList),
   ("SHA3-512".toList), ("BLAKE2s-256".toList), ("BLAKE2b-256".toList), ("BLAKE2b-384".toList),
   ("BLAKE2b-512".toList)]

/-- `Hashes[i].String()`: the display name of algorithm `i`. -/
def hashString (i : Fin NumHash) : List Char := hashDisplayNames.getD i.val []

/-- The table `hashcs.Names`: each group starts with the canonical name
(lowercase of the display name) followed by its aliases. -/
def Names : List (List (List Char)) :=
  [[("md4".toList)],
   [("md5".toList), ("m".toList)],
   [("sha-1".toList), ("sha_1".toList), ("sha1".toList)],
   [("sha-224".toList), ("sha_224".toList), ("sha224".toList)],
   [("sha-256".toList), ("sha_256".toList), ("sha256".toList), ("s".toList)],
   [("sha-384".toList), ("sha_384".toList), ("sha384".toList)],
   [("sha-512".toList), ("sha_512".toList), ("sha512".toList)],
   [("sha-512/224".toList), ("sha-512_224".toList), ("sha-512224".toList),
    ("sha_512/224".toList), ("sha_512_224".toList), ("sha_512224".toList),
    ("sha512/224".toList), ("sha512_224".toList), ("sha512224".toList)],
   [("sha-512/256".toList), ("sha-512_256".toList), ("sha-512256".toList),
    ("sha_512/256".toList), ("sha_512_256".toList), ("sha_512256".toList),
    ("sha512/256".toList), ("sha512_256".toList), ("sha512256".toList)],
   [("ripemd-160".toList), ("ripemd_160".toList), ("ripemd160".toList)],
   [("sha3-224".toList), ("sha3_224".toList), ("sha3224".toList)],
   [("sha3-256".toList), ("sha3_256".toList), ("sha3256".toList)],
   [("sha3-384".toList), ("sha3_384".toList), ("sha3384".toList)],
   [("sha3-512".toList), ("sha3_512".toList), ("sha3512".toList)],
   [("blake2s-256".toList), ("blake2s_256".toList), ("blake2s256".toList)],
   [("blake2b-256".toList), ("blake2b_256".toList), ("blake2b256".toList)],
   [("blake2b-384".toList), ("blake2b_384".toList), ("blake2b384".toList)],
   [("blake2b-512".toList), ("blake2b_512".toList), ("blake2b512".toList)]]

/-- Helper for `nameRank`: scan the groups of `Names` carrying the current
index; a hit in group `i` yields rank `i + 1`. -/
def nameRankAux : Nat → List (List (List Char)) → List Char → Nat
  | _, [], _ => 0
  | i, g :: rest, n => if n ∈ g then i + 1 else nameRankAux (i + 1) rest n

/-- The map `hashcs.nameRankMap`: rank (index in `Names` plus one) of a name
or alias, `0` when absent (a Go map lookup miss yields the zero value).
The alias groups are pairwise disjoint, so scanning for the first group
containing the name agrees with the map built by the `init` loop. -/
def nameRank (name : List Char) : Nat := nameRankAux 0 Names name

/-- `hashcs.HashChecksum`: display name and hex digest. -/
structure HashChecksum where
  HashName : List Char
  Checksum : List Char
deriving DecidableEq, Repr

/-- `cmd.expectedHashChecksum` (verify.go): algorithm display name plus the
expected lowercase checksum parts.  The source fields `prefix` and `suffix`
are Lean keywords and are rendered `pfx` and `sfx`. -/
structure expectedHashChecksum where
  hashName : List Char
  pfx : List Char
  sfx : List Char
deriving DecidableEq, Repr

/-- Go `unicode.IsSpace` (the Unicode White_Space property), used by
`strings.TrimSpace`. -/
def goIsSpace (c : Char) : Bool :=
  (9 ≤ c.toNat && c.toNat ≤ 13) || c.toNat = 32 || c.toNat = 0x85 || c.toNat = 0xA0 ||
  c.toNat = 0x1680 || (0x2000 ≤ c.toNat && c.toNat ≤ 0x200A) || c.toNat = 0x2028 ||
  c.toNat = 0x2029 || c.toNat = 0x202F || c.toNat = 0x205F || c.toNat = 0x3000

/-- Go `strings.ToLower`, which maps every rune through the simple case
mapping.  `Char.toLower` implements that mapping on the Basic Latin range,
which covers all characters occurring in the registry names and in valid
checksum expressions. -/
def toLowerStr (s : List Char) : List Char := s.map Char.toLower

/-- Go `strings.TrimSpace`: drop leading and trailing white space. -/
def trimSpace (s : List Char) : List Char :=
  ((s.dropWhile goIsSpace).reverse.dropWhile goIsSpace).reverse

/-- Go `strings.TrimPrefix(s, "0x")`: remove one leading `0x` if present. -/
def strip0x (s : List Char) : List Char :=
  if s.take 2 = ['0', 'x'] then s.drop 2 else s

/-- The literal three-character marker `...` of a checksum expression. -/
def threeDots : List Char := ['.', '.', '.']

/-- Go `strings.Cut(s, "...")`: split `s` around the first occurrence of the
marker, returning `(before, after, found)`; `(s, [], false)` when absent. -/
def cutDots : List Char → List Char × List Char × Bool
  | [] => ([], [], false)
  | c :: rest =>
    if c = '.' ∧ rest.take 2 = ['.', '.'] then ([], rest.drop 2, true)
    else
      let r := cutDots rest
      (c :: r.1, r.2.1, r.2.2)

/-- `cmd.notLowerHexString` (verify.go): reports whether `s` is NOT a valid
lowercase hexadecimal string.  The Go test on a rune `r` is
`r < '0' || r > '9' && r < 'a' || r > 'f'`; code points: `'0'` = 48,
`'9'` = 57, `'a'` = 97, `'f'` = 102. -/
def notLowerHexString (s : List Char) : Bool :=
  s.any fun r =>
    decide (r.toNat < 48) || (decide (57 < r.toNat) && decide (r.toNat < 97)) ||
      decide (102 < r.toNat)

/-- Spec-side predicate: `c` is one of the characters `[0-9a-f]`. -/
def isLowerHexChar (c : Char) : Bool :=
  (48 ≤ c.toNat && c.toNat ≤ 57) || (97 ≤ c.toNat && c.toNat ≤ 102)

/-- Spec-side predicate: every character of `s` lies in `[0-9a-f]`. -/
def onlyLowerHex (s : List Char) : Bool := s.all isLowerHexChar

/-- Which part of a checksum expression an `InvalidHex` error refers to. -/
inductive HexPart where
  | pre
  | suf
deriving DecidableEq, Repr

/-- Outcome of parsing one non-empty flag value. -/
inductive FlagParseOut where
  | ok (p s : List Char)
  | invalidHex (part : HexPart) (value : List Char)
deriving DecidableEq, Repr

/-- The trimmed, `0x`-stripped text before the marker of the lowercased raw
expression (`prefixTrimmed` in parseHashChecksumFlags). -/
def pfxOf (raw : List Char) : List Char :=
  strip0x (trimSpace (cutDots (toLowerStr raw)).1)

/-- The trimmed, `0x`-stripped text after the marker of the lowercased raw
expression (`suffixTrimmed` in parseHashChecksumFlags). -/
def sfxOf (raw : List Char) : List Char :=
  strip0x (trimSpace (cutDots (toLowerStr raw)).2.1)

/-- The loop body of `cmd.parseHashChecksumFlags` for one non-empty flag
value: lowercase, cut on `...`, trim, strip `0x`, validate the prefix part
then the suffix part; an error echoes the pre-trim candidate. -/
def parseOneFlag (raw : List Char) : FlagParseOut :=
  if notLowerHexString (pfxOf raw) then
    .invalidHex .pre (cutDots (toLowerStr raw)).1
  else if notLowerHexString (sfxOf raw) then
    .invalidHex .suf (cutDots (toLowerStr raw)).2.1
  else
    .ok (pfxOf raw) (sfxOf raw)

/-- Error of `parseHashChecksumFlags`: the flag (by registry index, which
determines the flag name used in the Go message), the invalid part, and the
echoed pre-trim candidate value. -/
structure ParseErr where
  flagIdx : Fin NumHash
  part : HexPart
  value : List Char
deriving DecidableEq, Repr

deriving instance DecidableEq for Except

/-- The expected entry built for registry index `i` from a valid flag value. -/
def mkExp (i : Fin NumHash) (raw : List Char) : expectedHashChecksum :=
  ⟨hashString i, pfxOf raw, sfxOf raw⟩

/-- The loop of `cmd.parseHashChecksumFlags` over the given flag indices:
empty flags are skipped, the first invalid flag aborts with its error, and
valid flags append an `expectedHashChecksum` with the display name
`Hashes[i].String()`. -/
def parseFlagsAux (flags : Fin NumHash → List Char) :
    List (Fin NumHash) → Except ParseErr (List expectedHashChecksum)
  | [] => .ok []
  | i :: rest =>
    if flags i = [] then parseFlagsAux flags rest
    else
      match parseOneFlag (flags i) with
      | .invalidHex part val => .error ⟨i, part, val⟩
      | .ok p s =>
        match parseFlagsAux flags rest with
        | .error e => .error e
        | .ok es => .ok (⟨hashString i, p, s⟩ :: es)

/-- `cmd.parseHashChecksumFlags`: parse the 18 checksum flags in registry
order. -/
def parseHashChecksumFlags (flags : Fin NumHash → List Char) :
    Except ParseErr (List expectedHashChecksum) :=
  parseFlagsAux flags (List.finRange NumHash)

/-- Errors of `hashcs.CalculateChecksum`: an `*UnknownHashAlgorithmError`
carrying the offending name, or a failure of the external file capability
`local.Checksum` (bad path, I/O error, directory). -/
inductive CSError where
  | unknownAlgorithm (name : List Char)
  | ioError
deriving DecidableEq, Repr

/-- The name-resolution loop of `hashcs.CalculateChecksum`: look every
requested name up in `nameRankMap`, failing on the first name of rank 0. -/
def resolveRanks : List (List Char) → Except (List Char) (List Nat)
  | [] => .ok []
  | n :: rest =>
    if nameRank n = 0 then .error n
    else
      match resolveRanks rest with
      | .error m => .error m
      | .ok rs => .ok (nameRank n :: rs)

/-- `hashcs.CalculateChecksum` (hash.go).  `d` is the oracle for the external
`local.Checksum` call on the fixed file: `none` models its failure, and
`some dig` models success with `dig i` the hex digest under algorithm `i`.
The Go code collects the resolved algorithms into a set and sorts it by
`hashRankMap` (ascending index in `Hashes`); that set-then-sort is modelled
by filtering `List.finRange NumHash` on membership of the resolved ranks,
which produces exactly the distinct requested algorithms in ascending
registration order.  On success the result pairs `Hashes[i].String()` with
the digest, in that order. -/
def CalculateChecksum (d : Option (Fin NumHash → List Char))
    (hashNames : List (List Char)) : Except CSError (List HashChecksum) :=
  let hashNames' := if hashNames = [] then [("sha-256".toList)] else hashNames
  match resolveRanks hashNames' with
  | .error n => .error (.unknownAlgorithm n)
  | .ok ranks =>
    match d with
    | none => .error .ioError
    | some dig =>
      .ok (((List.finRange NumHash).filter fun i => decide ((i.val + 1) ∈ ranks)).map
        fun i => ⟨hashString i, dig i⟩)

/-- Go slice `s[n:]`, which panics (here: `none`) when `n > len(s)`. -/
def goSliceFrom (s : List Char) (n : Nat) : Option (List Char) :=
  if n ≤ s.length then some (s.drop n) else none

/-- The mismatch condition of the `verifyChecksum` loop, with Go's evaluation
order: `!strings.HasPrefix(cs, pfx) || !strings.HasSuffix(cs[len(pfx):], sfx)`.
The right operand — including the slice — is evaluated only when the left
operand is `false`; a `none` result models a slice-bounds panic. -/
def mismatchCond (pfx sfx cs : List Char) : Option Bool :=
  if pfx.isPrefixOf cs = false then some true
  else (goSliceFrom cs pfx.length).map fun rest => !(sfx.isSuffixOf rest)

/-- Total form of the per-algorithm match check of `verifyChecksum`: the
digest starts with the prefix and the remainder after dropping
`len(prefix)` characters ends with the suffix. -/
def checkMatch (pfx sfx cs : List Char) : Bool :=
  pfx.isPrefixOf cs && sfx.isSuffixOf (cs.drop pfx.length)

/-- Errors of `cmd.verifyChecksum`: a flag parse failure, the
`hash checksum not specified` error, a propagated `CalculateChecksum`
failure, and the two internal-consistency errors (checksum count mismatch,
hash name mismatch at some position). -/
inductive VerifyErr where
  | parseFailure (e : ParseErr)
  | checksumNotSpecified
  | calcFailure (e : CSError)
  | countMismatch (got want : Nat)
  | hashNameMismatch (got want : List Char)
deriving DecidableEq, Repr

/-- The comparison loop of `cmd.verifyChecksum`: walk the expected entries
and the computed checksums in lockstep; a hash-name disagreement aborts with
an error (discarding any collected mismatches, as the Go code returns `nil`),
otherwise a failed match check appends the computed checksum to the mismatch
list.  `none` models a panic inside the loop. -/
def verifyLoop : List expectedHashChecksum → List HashChecksum →
    Option (Except VerifyErr (List HashChecksum))
  | e :: es, c :: cs =>
    if e.hashName ≠ c.HashName then some (.error (.hashNameMismatch c.HashName e.hashName))
    else
      match mismatchCond e.pfx e.sfx c.Checksum with
      | none => none
      | some true =>
        match verifyLoop es cs with
        | none => none
        | some (.error err) => some (.error err)
        | some (.ok m) => some (.ok (c :: m))
      | some false => verifyLoop es cs
  | _, _ => some (.ok [])

/-- `cmd.verifyChecksum` (verify.go): parse the flags (parse failures are
illegal-use errors), fail with `hash checksum not specified` when no flag was
set (also illegal use), call `CalculateChecksum` with the lowercased expected
hash names (its failures are not illegal use), check the two internal
consistency conditions, then run the comparison loop.  The result triple is
`(mismatch, err, isIllegalUseError)`; `none` models a panic. -/
def verifyChecksum (d : Option (Fin NumHash → List Char))
    (flags : Fin NumHash → List Char) :
    Option (List HashChecksum × Option VerifyErr × Bool) :=
  match parseHashChecksumFlags flags with
  | .error e => some ([], some (.parseFailure e), true)
  | .ok expected =>
    if expected.length = 0 then some ([], some .checksumNotSpecified, true)
    else
      match CalculateChecksum d (expected.map fun e => toLowerStr e.hashName) with
      | .error e => some ([], some (.calcFailure e), false)
      | .ok checksums =>
        if checksums.length ≠ expected.length then
          some ([], some (.countMismatch checksums.length expected.length), false)
        else
          match verifyLoop expected checksums with
          | none => none
          | some (.error e) => some ([], some e, false)
          | some (.ok mismatch) => some (mismatch, none, false)

/-- A flag array with a single non-empty entry at index `i`. -/
def singleFlag (i : Fin NumHash) (v : List Char) : Fin NumHash → List Char :=
  fun j => if j = i then v else []

/-- The indices whose flag is non-empty, in registration order. -/
def activeIdx (flags : Fin NumHash → List Char) : List (Fin NumHash) :=
  (List.finRange NumHash).filter fun i => decide (flags i ≠ [])

/-- The checksum record computed for algorithm `i` under digest oracle `dig`. -/
def hcOf (dig : Fin NumHash → List Char) (i : Fin NumHash) : HashChecksum :=
  ⟨hashString i, dig i⟩


/-! ### Character-level facts -/

lemma char_toNat_ofNat_valid (n : Nat) (h : n.isValidChar) : (Char.ofNat n).toNat = n := by
  rw [Char.ofNat, dif_pos h]
  rfl

lemma toLower_fix (c : Char) (h : c.toNat < 65 ∨ 90 < c.toNat) : Char.toLower c = c := by
  rw [Char.toLower, if_neg]
  omega

lemma toLower_toNat (c : Char) (h : 65 ≤ c.toNat) (h2 : c.toNat ≤ 90) :
    (Char.toLower c).toNat = c.toNat + 32 := by
  rw [Char.toLower, if_pos (by omega)]
  exact char_toNat_ofNat_valid _ (Or.inl (by omega))

lemma toLower_dot_iff (c : Char) : Char.toLower c = '.' ↔ c = '.' := by
  constructor
  · intro h
    by_cases hc : 65 ≤ c.toNat ∧ c.toNat ≤ 90
    · exfalso
      have hv := toLower_toNat c hc.1 hc.2
      rw [h] at hv
      simp at hv
      omega
    · rwa [toLower_fix c (by omega)] at h
  · intro h
    subst h
    rfl

lemma isLowerHexChar_bounds (c : Char) (h : isLowerHexChar c = true) :
    (48 ≤ c.toNat ∧ c.toNat ≤ 57) ∨ (97 ≤ c.toNat ∧ c.toNat ≤ 102) := by
  simp only [isLowerHexChar, Bool.or_eq_true, Bool.and_eq_true, decide_eq_true_eq] at h
  omega

lemma isLowerHexChar_toLower (c : Char) (h : isLowerHexChar c = true) :
    Char.toLower c = c := by
  have := isLowerHexChar_bounds c h
  exact toLower_fix c (by omega)

lemma isLowerHexChar_ne_dot (c : Char) (h : isLowerHexChar c = true) : c ≠ '.' := by
  intro he
  subst he
  exact absurd h (by decide)

lemma isLowerHexChar_not_space (c : Char) (h : isLowerHexChar c = true) :
    goIsSpace c = false := by
  have := isLowerHexChar_bounds c h
  simp only [goIsSpace, Bool.or_eq_false_iff, Bool.and_eq_false_iff, decide_eq_false_iff_not,
    not_le, not_lt]
  omega

lemma notLowerHexString_false_iff (s : List Char) :
    notLowerHexString s = false ↔ onlyLowerHex s = true := by
  simp only [notLowerHexString, onlyLowerHex, List.any_eq_false, List.all_eq_true,
    isLowerHexChar, Bool.or_eq_false_iff, Bool.and_eq_false_iff, Bool.or_eq_true,
    Bool.and_eq_true, decide_eq_false_iff_not, decide_eq_true_eq, not_lt]
  constructor <;> intro h c hc <;> have := h c hc <;> omega

/-! ### TrimSpace, 0x-stripping and lowercasing on clean strings -/

lemma dropWhile_goIsSpace_eq_self (s : List Char) (h : ∀ c ∈ s, goIsSpace c = false) :
    s.dropWhile goIsSpace = s := by
  cases s with
  | nil => rfl
  | cons c t => simp [List.dropWhile_cons, h c (by simp)]

lemma trimSpace_eq_self (s : List Char) (h : ∀ c ∈ s, goIsSpace c = false) :
    trimSpace s = s := by
  unfold trimSpace
  rw [dropWhile_goIsSpace_eq_self s h,
    dropWhile_goIsSpace_eq_self s.reverse (fun c hc => h c (List.mem_reverse.mp hc)),
    List.reverse_reverse]

lemma strip0x_eq_self (s : List Char) (h : ∀ c ∈ s, isLowerHexChar c = true) :
    strip0x s = s := by
  unfold strip0x
  rw [if_neg]
  intro he
  have hx : 'x' ∈ s.take 2 := by
    rw [he]
    simp
  exact absurd (h 'x' (List.mem_of_mem_take hx)) (by decide)

lemma toLowerStr_eq_self (s : List Char) (h : ∀ c ∈ s, Char.toLower c = c) :
    toLowerStr s = s := by
  unfold toLowerStr
  rw [List.map_congr_left h]
  exact List.map_id' s

/-! ### Correctness of the marker split (`strings.Cut` on `...`) -/

lemma cutDots_found : ∀ s : List Char, (cutDots s).2.2 = true →
    s = (cutDots s).1 ++ threeDots ++ (cutDots s).2.1 := by
  intro s
  induction s with
  | nil => intro h; simp [cutDots] at h
  | cons c t ih =>
    intro h
    by_cases hc : c = '.' ∧ t.take 2 = ['.', '.']
    · have ht : t = '.' :: '.' :: t.drop 2 := by
        conv_lhs => rw [← List.take_append_drop 2 t]
        rw [hc.2]
        rfl
      simp only [cutDots, if_pos hc, threeDots, List.nil_append, List.cons_append]
      rw [hc.1]
      conv_lhs => rw [ht]
    · simp only [cutDots, if_neg hc, List.cons_append] at h ⊢
      exact congrArg (c :: ·) (ih h)

lemma cutDots_min : ∀ s p' s' : List Char, s = p' ++ threeDots ++ s' →
    (cutDots s).2.2 = true ∧ (cutDots s).1.length ≤ p'.length := by
  intro s
  induction s with
  | nil =>
    intro p' s' h
    have hl := congrArg List.length h
    simp only [List.length_nil, List.length_append, threeDots, List.length_cons] at hl
    omega
  | cons c t ih =>
    intro p' s' h
    by_cases hc : c = '.' ∧ t.take 2 = ['.', '.']
    · constructor
      · simp [cutDots, if_pos hc]
      · simp [cutDots, if_pos hc]
    · cases p' with
      | nil =>
        exfalso
        apply hc
        simp only [List.nil_append, threeDots] at h
        injection h with h1 h2
        refine ⟨h1, ?_⟩
        rw [h2]
        rfl
      | cons c' p'' =>
        simp only [List.cons_append] at h
        injection h with h1 h2
        have hit := ih p'' s' h2
        constructor
        · simp only [cutDots, if_neg hc]
          exact hit.1
        · simp only [cutDots, if_neg hc, List.length_cons]
          have := hit.2
          omega

lemma cutDots_not_found : ∀ s : List Char, (cutDots s).2.2 = false →
    (cutDots s).1 = s ∧ (cutDots s).2.1 = [] := by
  intro s
  induction s with
  | nil => intro _; exact ⟨rfl, rfl⟩
  | cons c t ih =>
    intro h
    by_cases hc : c = '.' ∧ t.take 2 = ['.', '.']
    · simp [cutDots, if_pos hc] at h
    · simp only [cutDots, if_neg hc] at h ⊢
      have := ih h
      exact ⟨congrArg (c :: ·) this.1, this.2⟩

lemma map_toLower_take2_dots_iff (u : List Char) :
    (toLowerStr u).take 2 = ['.', '.'] ↔ u.take 2 = ['.', '.'] := by
  cases u with
  | nil => simp [toLowerStr]
  | cons a v =>
    cases v with
    | nil => simp [toLowerStr]
    | cons b w =>
      simp only [toLowerStr, List.map_cons, List.take_succ_cons, List.take_zero]
      constructor
      · intro h
        injection h with h1 h2
        injection h2 with h2 _
        rw [(toLower_dot_iff a).mp h1, (toLower_dot_iff b).mp h2]
      · intro h
        injection h with h1 h2
        injection h2 with h2 _
        rw [h1, h2]
        rfl

lemma cutDots_toLower : ∀ s : List Char,
    cutDots (toLowerStr s) =
      (toLowerStr (cutDots s).1, toLowerStr (cutDots s).2.1, (cutDots s).2.2) := by
  intro s
  induction s with
  | nil => rfl
  | cons c t ih =>
    by_cases hc : c = '.' ∧ t.take 2 = ['.', '.']
    · have hc' : Char.toLower c = '.' ∧ (toLowerStr t).take 2 = ['.', '.'] :=
        ⟨(toLower_dot_iff c).mpr hc.1, (map_toLower_take2_dots_iff t).mpr hc.2⟩
      show cutDots (Char.toLower c :: toLowerStr t) = _
      simp only [cutDots, if_pos hc, if_pos hc']
      simp [toLowerStr, List.map_drop]
    · have hc' : ¬(Char.toLower c = '.' ∧ (toLowerStr t).take 2 = ['.', '.']) := by
        intro hcon
        exact hc ⟨(toLower_dot_iff c).mp hcon.1, (map_toLower_take2_dots_iff t).mp hcon.2⟩
      show cutDots (Char.toLower c :: toLowerStr t) = _
      simp only [cutDots, if_neg hc, if_neg hc']
      rw [ih]
      simp [toLowerStr]

lemma cutDots_append (p q : List Char) (hp : ∀ c ∈ p, c ≠ '.') :
    cutDots (p ++ threeDots ++ q) = (p, q, true) := by
  induction p with
  | nil =>
    simp only [List.nil_append, threeDots, List.cons_append]
    simp [cutDots]
  | cons c p' ih =>
    have hstep : (c :: p') ++ threeDots ++ q = c :: (p' ++ threeDots ++ q) := by
      simp
    rw [hstep]
    have hc : ¬(c = '.' ∧ (p' ++ threeDots ++ q).take 2 = ['.', '.']) := by
      intro hcon
      exact hp c (by simp) hcon.1
    simp only [cutDots, if_neg hc]
    rw [ih (fun x hx => hp x (List.mem_cons_of_mem _ hx))]

/-! ### Facts about `parseOneFlag` and `parseFlagsAux` -/

lemma parseOneFlag_ok_iff (raw : List Char) :
    parseOneFlag raw = .ok (pfxOf raw) (sfxOf raw) ↔
      notLowerHexString (pfxOf raw) = false ∧ notLowerHexString (sfxOf raw) = false := by
  unfold parseOneFlag
  by_cases h1 : notLowerHexString (pfxOf raw) = true
  · simp [h1]
  · rw [Bool.not_eq_true] at h1
    by_cases h2 : notLowerHexString (sfxOf raw) = true
    · simp [h1, h2]
    · rw [Bool.not_eq_true] at h2
      simp [h1, h2]

lemma parseOneFlag_ok_eq (raw p s : List Char) (h : parseOneFlag raw = .ok p s) :
    p = pfxOf raw ∧ s = sfxOf raw ∧
      notLowerHexString (pfxOf raw) = false ∧ notLowerHexString (sfxOf raw) = false := by
  unfold parseOneFlag at h
  by_cases h1 : notLowerHexString (pfxOf raw) = true
  · rw [if_pos h1] at h
    exact absurd h (by simp)
  · rw [Bool.not_eq_true] at h1
    rw [if_neg (by simp [h1])] at h
    by_cases h2 : notLowerHexString (sfxOf raw) = true
    · rw [if_pos h2] at h
      exact absurd h (by simp)
    · rw [Bool.not_eq_true] at h2
      rw [if_neg (by simp [h2])] at h
      injection h with hp hs
      exact ⟨hp.symm, hs.symm, h1, h2⟩

lemma parseOneFlag_err_pre (raw : List Char) (h : notLowerHexString (pfxOf raw) = true) :
    parseOneFlag raw = .invalidHex .pre (cutDots (toLowerStr raw)).1 := by
  unfold parseOneFlag
  rw [if_pos h]

lemma parseOneFlag_err_suf (raw : List Char) (h1 : notLowerHexString (pfxOf raw) = false)
    (h2 : notLowerHexString (sfxOf raw) = true) :
    parseOneFlag raw = .invalidHex .suf (cutDots (toLowerStr raw)).2.1 := by
  unfold parseOneFlag
  rw [if_neg (by simp [h1]), if_pos h2]

lemma parseFlagsAux_shape (flags : Fin NumHash → List Char) :
    ∀ (l : List (Fin NumHash)) (es : List expectedHashChecksum),
      parseFlagsAux flags l = .ok es →
      es = (l.filter fun i => decide (flags i ≠ [])).map fun i => mkExp i (flags i) := by
  intro l
  induction l with
  | nil =>
    intro es h
    simp only [parseFlagsAux] at h
    injection h with h
    simp [h.symm]
  | cons i t ih =>
    intro es h
    simp only [parseFlagsAux] at h
    by_cases hi : flags i = []
    · rw [if_pos hi] at h
      rw [List.filter_cons_of_neg (by simp [hi])]
      exact ih es h
    · rw [if_neg hi] at h
      rw [List.filter_cons_of_pos (by simp [hi])]
      cases hone : parseOneFlag (flags i) with
      | invalidHex part val =>
        rw [hone] at h
        exact absurd h (by simp)
      | ok p s =>
        rw [hone] at h
        cases hrest : parseFlagsAux flags t with
        | error e =>
          rw [hrest] at h
          exact absurd h (by simp)
        | ok es' =>
          rw [hrest] at h
          injection h with h
          obtain ⟨hp, hs, _, _⟩ := parseOneFlag_ok_eq (flags i) p s hone
          rw [← h, List.map_cons, ← ih es' hrest, mkExp, hp, hs]

lemma parseFlagsAux_ok_of (flags : Fin NumHash → List Char) :
    ∀ l : List (Fin NumHash),
      (∀ i ∈ l, flags i ≠ [] →
        notLowerHexString (pfxOf (flags i)) = false ∧
          notLowerHexString (sfxOf (flags i)) = false) →
      parseFlagsAux flags l =
        .ok ((l.filter fun i => decide (flags i ≠ [])).map fun i => mkExp i (flags i)) := by
  intro l
  induction l with
  | nil => intro _; rfl
  | cons i t ih =>
    intro h
    simp only [parseFlagsAux]
    by_cases hi : flags i = []
    · rw [if_pos hi, List.filter_cons_of_neg (by simp [hi])]
      exact ih fun j hj hne => h j (List.mem_cons_of_mem _ hj) hne
    · rw [if_neg hi, List.filter_cons_of_pos (by simp [hi])]
      have hone := (parseOneFlag_ok_iff (flags i)).mpr (h i (by simp) hi)
      rw [hone, ih fun j hj hne => h j (List.mem_cons_of_mem _ hj) hne]
      rfl

/-! ### Facts about the registry and `resolveRanks` -/

lemma nameRank_hashString : ∀ i : Fin NumHash,
    nameRank (toLowerStr (hashString i)) = i.val + 1 := by decide

lemma hashString_inj : ∀ i j : Fin NumHash, hashString i = hashString j → i = j := by decide

lemma finRange_filter_eq_single : ∀ i : Fin NumHash,
    ((List.finRange NumHash).filter fun j => decide (j = i)) = [i] := by decide

lemma finRange_countP_single : ∀ i : Fin NumHash,
    ((List.finRange NumHash).countP fun j => decide (j = i)) = 1 := by decide

lemma resolveRanks_ok (ns : List (List Char)) (h : ∀ n ∈ ns, nameRank n ≠ 0) :
    resolveRanks ns = .ok (ns.map nameRank) := by
  induction ns with
  | nil => rfl
  | cons n t ih =>
    simp only [resolveRanks]
    rw [if_neg (h n (by simp)), ih fun m hm => h m (List.mem_cons_of_mem _ hm)]
    rfl

lemma resolveRanks_err (ns : List (List Char)) (h : ∃ n ∈ ns, nameRank n = 0) :
    ∃ n ∈ ns, nameRank n = 0 ∧ resolveRanks ns = .error n := by
  induction ns with
  | nil => simp at h
  | cons m t ih =>
    by_cases hm : nameRank m = 0
    · refine ⟨m, by simp, hm, ?_⟩
      simp only [resolveRanks]
      rw [if_pos hm]
    · obtain ⟨n, hn, hn0⟩ := h
      rcases List.mem_cons.mp hn with rfl | hnt
      · exact absurd hn0 hm
      · obtain ⟨n', hn', hn0', herr⟩ := ih ⟨n, hnt, hn0⟩
        refine ⟨n', List.mem_cons_of_mem _ hn', hn0', ?_⟩
        simp only [resolveRanks]
        rw [if_neg hm, herr]

/-! ### The comparison loop -/

lemma mkExp_hashName (i : Fin NumHash) (raw : List Char) :
    (mkExp i raw).hashName = hashString i := rfl

lemma mkExp_pfx (i : Fin NumHash) (raw : List Char) : (mkExp i raw).pfx = pfxOf raw := rfl

lemma mkExp_sfx (i : Fin NumHash) (raw : List Char) : (mkExp i raw).sfx = sfxOf raw := rfl

lemma hcOf_HashName (dig : Fin NumHash → List Char) (i : Fin NumHash) :
    (hcOf dig i).HashName = hashString i := rfl

lemma hcOf_Checksum (dig : Fin NumHash → List Char) (i : Fin NumHash) :
    (hcOf dig i).Checksum = dig i := rfl

lemma mismatchCond_eq (p s c : List Char) :
    mismatchCond p s c = some (!(checkMatch p s c)) := by
  unfold mismatchCond checkMatch
  cases hp : p.isPrefixOf c with
  | false => simp [hp]
  | true =>
    have hle : p.length ≤ c.length := ( List.isPrefixOf_iff_prefix.mp hp).length_le
    simp [hp, goSliceFrom, hle]

lemma verifyLoop_ne_none : ∀ (es : List expectedHashChecksum) (cs : List HashChecksum),
    verifyLoop es cs ≠ none := by
  intro es
  induction es with
  | nil => intro cs; simp [verifyLoop]
  | cons e t ih =>
    intro cs
    cases cs with
    | nil => simp [verifyLoop]
    | cons c cs' =>
      simp only [verifyLoop]
      by_cases hn : e.hashName ≠ c.HashName
      · simp [hn]
      · rw [if_neg hn, mismatchCond_eq]
        cases hm : checkMatch e.pfx e.sfx c.Checksum with
        | true => simpa using ih cs'
        | false =>
          cases hrec : verifyLoop t cs' with
          | none => exact absurd hrec (ih cs')
          | some r => cases r <;> simp

lemma verifyLoop_map (dig : Fin NumHash → List Char) (flags : Fin NumHash → List Char) :
    ∀ l : List (Fin NumHash),
      verifyLoop (l.map fun i => mkExp i (flags i)) (l.map fun i => hcOf dig i) =
        some (.ok ((l.filter fun i =>
          !(checkMatch (pfxOf (flags i)) (sfxOf (flags i)) (dig i))).map
            fun i => hcOf dig i)) := by
  intro l
  induction l with
  | nil => rfl
  | cons i t ih =>
    simp only [List.map_cons, verifyLoop, mkExp_hashName, hcOf_HashName, mkExp_pfx, mkExp_sfx,
      hcOf_Checksum, mismatchCond_eq]
    rw [if_neg (by simp)]
    cases hm : checkMatch (pfxOf (flags i)) (sfxOf (flags i)) (dig i) with
    | true =>
      rw [List.filter_cons_of_neg (by simp [hm])]
      simpa using ih
    | false =>
      rw [List.filter_cons_of_pos (by simp [hm]), ih]
      simp

/-! ### The success path of `verifyChecksum` -/

lemma activeIdx_eq_filter (flags : Fin NumHash → List Char) :
    activeIdx flags = (List.finRange NumHash).filter fun i => decide (flags i ≠ []) := rfl

lemma calc_filter_eq (flags : Fin NumHash → List Char) :
    ((List.finRange NumHash).filter fun i =>
      decide ((i.val + 1) ∈ (activeIdx flags).map fun j => j.val + 1)) = activeIdx flags := by
  conv_rhs => rw [activeIdx_eq_filter]
  apply List.filter_congr
  intro i _
  rw [decide_eq_decide]
  constructor
  · intro hmem
    obtain ⟨j, hj, hji⟩ := List.mem_map.mp hmem
    have hj' : j = i := Fin.ext (by omega)
    subst hj'
    have := List.mem_filter.mp hj
    simpa using this.2
  · intro hflag
    exact List.mem_map.mpr
      ⟨i, List.mem_filter.mpr ⟨List.mem_finRange i, by simpa using hflag⟩, rfl⟩

lemma CalculateChecksum_of_names (dig : Fin NumHash → List Char)
    (flags : Fin NumHash → List Char) (hne : activeIdx flags ≠ []) :
    CalculateChecksum (some dig)
        (((activeIdx flags).map fun i => mkExp i (flags i)).map fun e => toLowerStr e.hashName) =
      .ok ((activeIdx flags).map fun i => hcOf dig i) := by
  have hnames : (((activeIdx flags).map fun i => mkExp i (flags i)).map
      fun e => toLowerStr e.hashName) = (activeIdx flags).map fun i => toLowerStr (hashString i) := by
    rw [List.map_map]
    rfl
  have hvalid : ∀ n ∈ (activeIdx flags).map fun i => toLowerStr (hashString i), nameRank n ≠ 0 := by
    intro n hn
    obtain ⟨i, _, rfl⟩ := List.mem_map.mp hn
    rw [nameRank_hashString i]
    omega
  have hranks : resolveRanks ((activeIdx flags).map fun i => toLowerStr (hashString i)) =
      .ok ((activeIdx flags).map fun i => i.val + 1) := by
    rw [resolveRanks_ok _ hvalid, List.map_map]
    congr 1
    apply List.map_congr_left
    intro i _
    exact nameRank_hashString i
  have hnonempty : ((activeIdx flags).map fun i => toLowerStr (hashString i)) ≠ [] := by
    simpa using hne
  rw [hnames]
  unfold CalculateChecksum
  rw [if_neg hnonempty]
  simp only [hranks, calc_filter_eq]
  rfl

lemma verifyChecksum_ok (dig : Fin NumHash → List Char) (flags : Fin NumHash → List Char)
    (es : List expectedHashChecksum) (hp : parseHashChecksumFlags flags = .ok es)
    (hne : es ≠ []) :
    verifyChecksum (some dig) flags =
      some ((((activeIdx flags).filter fun i =>
          !(checkMatch (pfxOf (flags i)) (sfxOf (flags i)) (dig i))).map fun i => hcOf dig i),
        none, false) := by
  have hes : es = (activeIdx flags).map fun i => mkExp i (flags i) :=
    parseFlagsAux_shape flags _ es hp
  have hact : activeIdx flags ≠ [] := by
    intro h0
    apply hne
    rw [hes, h0]
    rfl
  have hcalc := CalculateChecksum_of_names dig flags hact
  unfold verifyChecksum
  rw [hp]
  simp only []
  rw [if_neg (by simpa [List.length_eq_zero] using hne)]
  rw [hes, hcalc]
  simp only []
  rw [if_neg (by simp)]
  rw [verifyLoop_map]

/-! ### Error paths of `verifyChecksum` -/

lemma verifyChecksum_parse_err (d : Option (Fin NumHash → List Char))
    (flags : Fin NumHash → List Char) (e : ParseErr)
    (h : parseHashChecksumFlags flags = .error e) :
    verifyChecksum d flags = some ([], some (.parseFailure e), true) := by
  unfold verifyChecksum
  rw [h]

lemma verifyChecksum_not_specified (d : Option (Fin NumHash → List Char))
    (flags : Fin NumHash → List Char) (h : parseHashChecksumFlags flags = .ok []) :
    verifyChecksum d flags = some ([], some .checksumNotSpecified, true) := by
  unfold verifyChecksum
  rw [h]
  rfl

lemma verifyChecksum_calc_err (d : Option (Fin NumHash → List Char))
    (flags : Fin NumHash → List Char) (es : List expectedHashChecksum) (ce : CSError)
    (hp : parseHashChecksumFlags flags = .ok es) (hne : es ≠ [])
    (hc : CalculateChecksum d (es.map fun e => toLowerStr e.hashName) = .error ce) :
    verifyChecksum d flags = some ([], some (.calcFailure ce), false) := by
  unfold verifyChecksum
  rw [hp]
  simp only []
  rw [if_neg (by simpa [List.length_eq_zero] using hne), hc]

/-! ### Facts used by the round-trip claim -/

lemma notLowerHexString_of_hex (s : List Char) (h : ∀ c ∈ s, isLowerHexChar c = true) :
    notLowerHexString s = false := by
  rw [notLowerHexString_false_iff]
  simpa [onlyLowerHex, List.all_eq_true] using h

lemma checkMatch_take_drop (D : List Char) (k : Nat) (hk : k ≤ D.length) :
    checkMatch (D.take k) (D.drop k) D = true := by
  unfold checkMatch
  have h1 : (D.take k).isPrefixOf D = true :=
    List.isPrefixOf_iff_prefix.mpr ( List.take_prefix k D)
  have hlen : (D.take k).length = k := by
    rw [List.length_take]
    omega
  have h2 : (D.drop k).isSuffixOf (D.drop k) = true :=
    List.isSuffixOf_iff_suffix.mpr (List.suffix_refl _)
  rw [h1, hlen, h2]
  rfl

lemma checkMatch_nil_nil (D : List Char) : checkMatch [] [] D = true := by
  unfold checkMatch
  have h1 : ([] : List Char).isPrefixOf D = true :=
    List.isPrefixOf_iff_prefix.mpr ( List.nil_prefix)
  have h2 : ([] : List Char).isSuffixOf (D.drop 0) = true :=
    List.isSuffixOf_iff_suffix.mpr (List.nil_suffix)
  rw [h1]
  simp only [List.length_nil, h2]
  rfl

lemma pfx_sfx_of_hex_expr (D : List Char) (hD : ∀ c ∈ D, isLowerHexChar c = true)
    (k : Nat) :
    pfxOf (D.take k ++ threeDots ++ D.drop k) = D.take k ∧
    sfxOf (D.take k ++ threeDots ++ D.drop k) = D.drop k := by
  have htake : ∀ c ∈ D.take k, isLowerHexChar c = true :=
    fun c hc => hD c (List.mem_of_mem_take hc)
  have hdrop : ∀ c ∈ D.drop k, isLowerHexChar c = true :=
    fun c hc => hD c (List.mem_of_mem_drop hc)
  have hlower : toLowerStr (D.take k ++ threeDots ++ D.drop k) =
      D.take k ++ threeDots ++ D.drop k := by
    apply toLowerStr_eq_self
    intro c hc
    rcases List.mem_append.mp hc with hc1 | hc2
    · rcases List.mem_append.mp hc1 with hc1a | hc1b
      · exact isLowerHexChar_toLower c (htake c hc1a)
      · have hdot : c = '.' := by
          simpa [threeDots] using hc1b
        subst hdot
        rfl
    · exact isLowerHexChar_toLower c (hdrop c hc2)
  have hcut : cutDots (D.take k ++ threeDots ++ D.drop k) = (D.take k, D.drop k, true) :=
    cutDots_append _ _ fun c hc => isLowerHexChar_ne_dot c (htake c hc)
  constructor
  · rw [pfxOf, hlower, hcut,
      trimSpace_eq_self _ (fun c hc => isLowerHexChar_not_space c (htake c hc)),
      strip0x_eq_self _ htake]
  · rw [sfxOf, hlower, hcut,
      trimSpace_eq_self _ (fun c hc => isLowerHexChar_not_space c (hdrop c hc)),
      strip0x_eq_self _ hdrop]

lemma activeIdx_singleFlag (i : Fin NumHash) (v : List Char) (hv : v ≠ []) :
    activeIdx (singleFlag i v) = [i] := by
  rw [activeIdx_eq_filter]
  have hcong : ((List.finRange NumHash).filter fun j => decide (singleFlag i v j ≠ [])) =
      (List.finRange NumHash).filter fun j => decide (j = i) := by
    apply List.filter_congr
    intro j _
    rw [decide_eq_decide]
    unfold singleFlag
    by_cases hj : j = i
    · subst hj
      simp [hv]
    · simp [hj]
  rw [hcong]
  exact finRange_filter_eq_single i

lemma parse_singleFlag (i : Fin NumHash) (v : List Char) (hv : v ≠ [])
    (h1 : notLowerHexString (pfxOf v) = false)
    (h2 : notLowerHexString (sfxOf v) = false) :
    parseHashChecksumFlags (singleFlag i v) = .ok [mkExp i v] := by
  have hcond : ∀ j ∈ List.finRange NumHash, singleFlag i v j ≠ [] →
      notLowerHexString (pfxOf (singleFlag i v j)) = false ∧
        notLowerHexString (sfxOf (singleFlag i v j)) = false := by
    intro j _ hne
    by_cases hji : j = i
    · subst hji
      simpa [singleFlag] using ⟨h1, h2⟩
    · exact absurd (by simp [singleFlag, hji]) hne
  have hok := parseFlagsAux_ok_of (singleFlag i v) (List.finRange NumHash) hcond
  have hfilt : ((List.finRange NumHash).filter fun j => decide (singleFlag i v j ≠ [])) = [i] := by
    have := activeIdx_singleFlag i v hv
    rwa [activeIdx_eq_filter] at this
  rw [parseHashChecksumFlags, hok, hfilt]
  simp [mkExp, singleFlag]

/-! ### Overlap behaviour of the match check -/

lemma checkMatch_overlap_false (D p s : List Char) (h : D.length < p.length + s.length) :
    checkMatch p s D = false := by
  unfold checkMatch
  cases hp : p.isPrefixOf D with
  | false => rfl
  | true =>
    cases hs : s.isSuffixOf (D.drop p.length) with
    | false => rfl
    | true =>
      exfalso
      have h1 := ( List.isPrefixOf_iff_prefix.mp hp).length_le
      have h2 := (List.isSuffixOf_iff_suffix.mp hs).length_le
      rw [List.length_drop] at h2
      omega

/-! ### Claim theorems -/

/-- C6: for every file (digest oracle `d`), calling `CalculateChecksum` with an
empty list of algorithm names returns exactly the same result as calling it
with the single algorithm name `sha-256`. -/
theorem calculate_checksum_default_sha256 (d : Option (Fin NumHash → List Char)) :
    CalculateChecksum d [] = CalculateChecksum d [("sha-256".toList)] := rfl

/-- C8: whenever the requested name list contains a name missing from the
registry's name/alias table, `CalculateChecksum` fails with an
`UnknownHashAlgorithmError` carrying such an offending name (the first one,
in request order); the `Except.error` result carries no checksums. -/
theorem calculate_checksum_unknown_name (d : Option (Fin NumHash → List Char))
    (ns : List (List Char)) (n₀ : List Char) (hmem : n₀ ∈ ns) (h0 : nameRank n₀ = 0) :
    ∃ n ∈ ns, nameRank n = 0 ∧
      CalculateChecksum d ns = .error (.unknownAlgorithm n) := by
  have hne : ns ≠ [] := by
    intro h
    subst h
    simp at hmem
  obtain ⟨n, hn, hn0, herr⟩ := resolveRanks_err ns ⟨n₀, hmem, h0⟩
  refine ⟨n, hn, hn0, ?_⟩
  unfold CalculateChecksum
  rw [if_neg hne]
  simp only [herr]

/-- C5: for every request list in which every name resolves, the result of
`CalculateChecksum` contains exactly one `HashChecksum` per distinct resolved
algorithm, ordered by the fixed registration order of `Hashes` (the filtered
`List.finRange`), never by request order; consequently any two request lists
resolving to the same set of algorithms — permutations, duplicates and
aliases included — produce identical output. -/
theorem calculate_checksum_order_invariance (dig : Fin NumHash → List Char)
    (ns₁ ns₂ : List (List Char)) (hne₁ : ns₁ ≠ []) (hne₂ : ns₂ ≠ [])
    (hr₁ : ∀ n ∈ ns₁, nameRank n ≠ 0) (hr₂ : ∀ n ∈ ns₂, nameRank n ≠ 0)
    (hset : ∀ i : Fin NumHash,
      ((i.val + 1) ∈ ns₁.map nameRank ↔ (i.val + 1) ∈ ns₂.map nameRank)) :
    CalculateChecksum (some dig) ns₁ = CalculateChecksum (some dig) ns₂ ∧
    CalculateChecksum (some dig) ns₁ = .ok
      (((List.finRange NumHash).filter fun i =>
        decide ((i.val + 1) ∈ ns₁.map nameRank)).map fun i => hcOf dig i) := by
  have hres : ∀ ns : List (List Char), ns ≠ [] → (∀ n ∈ ns, nameRank n ≠ 0) →
      CalculateChecksum (some dig) ns = .ok
        (((List.finRange NumHash).filter fun i =>
          decide ((i.val + 1) ∈ ns.map nameRank)).map fun i => hcOf dig i) := by
    intro ns hne hr
    unfold CalculateChecksum
    rw [if_neg hne]
    simp only [resolveRanks_ok ns hr]
    rfl
  refine ⟨?_, hres ns₁ hne₁ hr₁⟩
  rw [hres ns₁ hne₁ hr₁, hres ns₂ hne₂ hr₂]
  congr 2
  apply List.filter_congr
  intro i _
  rw [decide_eq_decide]
  exact hset i

/-- C3: `verifyChecksum` classifies failures as follows: a flag parse failure
makes the whole call fail with that error and `isIllegalUseError = true` and
an empty mismatch list; if every flag is empty the call fails with the
distinct checksum-not-specified error, also with `isIllegalUseError = true`;
any `CalculateChecksum` failure propagates with `isIllegalUseError = false`. -/
theorem verify_error_classification (d : Option (Fin NumHash → List Char))
    (flags : Fin NumHash → List Char) :
    (∀ e, parseHashChecksumFlags flags = .error e →
      verifyChecksum d flags = some ([], some (.parseFailure e), true)) ∧
    (parseHashChecksumFlags flags = .ok [] →
      verifyChecksum d flags = some ([], some .checksumNotSpecified, true)) ∧
    (∀ es ce, parseHashChecksumFlags flags = .ok es → es ≠ [] →
      CalculateChecksum d (es.map fun e => toLowerStr e.hashName) = .error ce →
      verifyChecksum d flags = some ([], some (.calcFailure ce), false)) :=
  ⟨fun e h => verifyChecksum_parse_err d flags e h,
   fun h => verifyChecksum_not_specified d flags h,
   fun es ce hp hne hc => verifyChecksum_calc_err d flags es ce hp hne hc⟩

/-- C9: the Go slice `checksums[i].Checksum[len(prefix):]` is evaluated only
after the prefix check has succeeded (short-circuit of `||`), so it never
panics: the mismatch condition always yields a value (it equals the total
match check negated), a prefix strictly longer than the digest merely yields
a mismatch (`some true`), and neither the comparison loop nor
`verifyChecksum` can reach the panic (`none`) outcome. -/
theorem slice_safety_in_bounds (p s c : List Char) (es : List expectedHashChecksum)
    (cs : List HashChecksum) (d : Option (Fin NumHash → List Char))
    (flags : Fin NumHash → List Char) :
    mismatchCond p s c = some (!(checkMatch p s c)) ∧
    (c.length < p.length → mismatchCond p s c = some true) ∧
    verifyLoop es cs ≠ none ∧
    verifyChecksum d flags ≠ none := by
  refine ⟨mismatchCond_eq p s c, ?_, verifyLoop_ne_none es cs, ?_⟩
  · intro hlen
    rw [mismatchCond_eq]
    cases hp : p.isPrefixOf c with
    | false => simp [checkMatch, hp]
    | true =>
      exfalso
      have := ( List.isPrefixOf_iff_prefix.mp hp).length_le
      omega
  · unfold verifyChecksum
    cases hpp : parseHashChecksumFlags flags with
    | error e => simp
    | ok es' =>
      dsimp only []
      by_cases h0 : es'.length = 0
      · simp [h0]
      · rw [if_neg h0]
        cases hcc : CalculateChecksum d (es'.map fun e => toLowerStr e.hashName) with
        | error e => simp
        | ok cs' =>
          dsimp only []
          by_cases hlen2 : cs'.length ≠ es'.length
          · simp [hlen2]
          · rw [if_neg hlen2]
            cases hvl : verifyLoop es' cs' with
            | none => exact absurd hvl (verifyLoop_ne_none es' cs')
            | some r => cases r <;> simp

/-- C7 counterexample: the claim asserts that for some digest `D`, prefix `p`
and suffix `s` with `len(p) + len(s) > len(D)` the match check can succeed.
It cannot: the suffix is matched inside the remainder of the digest after
removing the prefix, so overlapping windows always fail. -/
theorem overlap_match_impossible :
    ¬ ∃ D p s : List Char, D.length < p.length + s.length ∧ checkMatch p s D = true := by
  rintro ⟨D, p, s, hlen, hmatch⟩
  rw [checkMatch_overlap_false D p s hlen] at hmatch
  exact Bool.false_ne_true hmatch

/-- C7 (amended): the match check proceeds positionally, with no explicit
length (non-overlap) validation, but whenever the combined length of prefix
and suffix exceeds the digest length the check necessarily fails — the
suffix is matched against the remainder after removing `len(prefix)`
characters, so the prefix and suffix cannot overlap. -/
theorem overlap_always_mismatch (D p s : List Char)
    (h : D.length < p.length + s.length) : checkMatch p s D = false :=
  checkMatch_overlap_false D p s h

/-- Witness for the amended C7 at a concrete input. -/
theorem overlap_always_mismatch_witness :
    (("ab".toList) : List Char).length < (("ab".toList) : List Char).length +
      (("b".toList) : List Char).length ∧
    checkMatch ("ab".toList) ("b".toList) ("ab".toList) = false :=
  ⟨by decide, overlap_always_mismatch ("ab".toList) ("ab".toList) ("b".toList) (by decide)⟩

lemma hashString_beq : ∀ j i : Fin NumHash,
    (hashString j == hashString i) = decide (j = i) := by decide

/-- C1: under the success path of `verifyChecksum` (flags parse, at least one
flag set), each requested algorithm contributes no mismatch record exactly
when its computed digest starts with the parsed prefix and the remainder
after dropping `len(prefix)` characters ends with the parsed suffix
(`checkMatch`); otherwise it contributes exactly one record, and every record
reported for that algorithm carries the computed digest. -/
theorem verify_mismatch_record_iff (dig : Fin NumHash → List Char)
    (flags : Fin NumHash → List Char) (es : List expectedHashChecksum)
    (hp : parseHashChecksumFlags flags = .ok es) (hne : es ≠ [])
    (i : Fin NumHash) (hi : flags i ≠ []) :
    ∃ m, verifyChecksum (some dig) flags = some (m, none, false) ∧
      (m.countP fun r => r.HashName == hashString i) =
        (if checkMatch (pfxOf (flags i)) (sfxOf (flags i)) (dig i) then 0 else 1) ∧
      ∀ r ∈ m, r.HashName = hashString i → r.Checksum = dig i := by
  refine ⟨_, verifyChecksum_ok dig flags es hp hne, ?_, ?_⟩
  · rw [List.countP_map, activeIdx_eq_filter, List.countP_filter, List.countP_filter]
    cases hm : checkMatch (pfxOf (flags i)) (sfxOf (flags i)) (dig i) with
    | true =>
      simp only [if_pos]
      apply List.countP_eq_zero.mpr
      intro j hj hcontra
      simp only [Function.comp_apply, hcOf_HashName, Bool.and_eq_true, beq_iff_eq,
        decide_eq_true_eq] at hcontra
      obtain ⟨⟨hname, hq⟩, hact⟩ := hcontra
      have hji : j = i := hashString_inj j i hname
      subst hji
      rw [hm] at hq
      simp at hq
    | false =>
      simp only [Bool.false_eq_true, if_false]
      have hcong : ((List.finRange NumHash).countP fun j =>
          (((fun r => r.HashName == hashString i) ∘ fun k => hcOf dig k) j &&
            !(checkMatch (pfxOf (flags j)) (sfxOf (flags j)) (dig j))) &&
            decide (flags j ≠ [])) =
          ((List.finRange NumHash).countP fun j => decide (j = i)) := by
        apply List.countP_congr
        intro j hj
        simp only [Function.comp_apply, hcOf_HashName, Bool.and_eq_true, beq_iff_eq,
          decide_eq_true_eq]
        constructor
        · rintro ⟨⟨hname, _⟩, _⟩
          exact hashString_inj j i hname
        · rintro rfl
          exact ⟨⟨rfl, by rw [hm]; rfl⟩, hi⟩
      rw [hcong, finRange_countP_single i]
  · intro r hr hname
    obtain ⟨j, hj, rfl⟩ := List.mem_map.mp hr
    rw [hcOf_HashName] at hname
    have hji : j = i := hashString_inj j i hname
    subst hji
    rfl

/-- Witness for C1: a single SHA-256 flag `ab` against digest `abc` — the
check succeeds, so zero mismatch records are reported for that algorithm. -/
theorem verify_mismatch_record_iff_witness :
    ∃ m, verifyChecksum (some fun _ => ("abc".toList))
        (singleFlag (⟨4, by decide⟩ : Fin NumHash) ("ab".toList)) = some (m, none, false) ∧
      (m.countP fun r => r.HashName == hashString (⟨4, by decide⟩ : Fin NumHash)) =
        (if checkMatch (pfxOf (singleFlag (⟨4, by decide⟩ : Fin NumHash) ("ab".toList) (⟨4, by decide⟩ : Fin NumHash)))
          (sfxOf (singleFlag (⟨4, by decide⟩ : Fin NumHash) ("ab".toList) (⟨4, by decide⟩ : Fin NumHash))) ("abc".toList) then 0 else 1) ∧
      ∀ r ∈ m, r.HashName = hashString (⟨4, by decide⟩ : Fin NumHash) → r.Checksum = ("abc".toList) :=
  verify_mismatch_record_iff (fun _ => ("abc".toList)) (singleFlag (⟨4, by decide⟩ : Fin NumHash) ("ab".toList))
    [mkExp (⟨4, by decide⟩ : Fin NumHash) ("ab".toList)] (by decide) (by decide) (⟨4, by decide⟩ : Fin NumHash) (by decide)

/-- C10: the expected entries produced by `parseHashChecksumFlags` are the
non-empty flags' registry indices in ascending canonical order, each with
the canonical display name `Hashes[i].String()`; the checksums returned by
`CalculateChecksum` for those entries align one-to-one by position and name;
hence on the success path the internal-consistency branches of
`verifyChecksum` (count mismatch, hash-name mismatch) are never taken. -/
theorem parse_canonical_alignment (dig : Fin NumHash → List Char)
    (flags : Fin NumHash → List Char) :
    (∀ es, parseHashChecksumFlags flags = .ok es →
      es = (activeIdx flags).map fun i => mkExp i (flags i)) ∧
    (∀ es, parseHashChecksumFlags flags = .ok es → es ≠ [] →
      ∃ cs, CalculateChecksum (some dig) (es.map fun e => toLowerStr e.hashName) = .ok cs ∧
        cs.map (fun r => r.HashName) = es.map fun e => e.hashName) ∧
    (∀ es, parseHashChecksumFlags flags = .ok es → es ≠ [] →
      ∃ m, verifyChecksum (some dig) flags = some (m, none, false)) := by
  refine ⟨?_, ?_, ?_⟩
  · intro es hp
    exact parseFlagsAux_shape flags _ es hp
  · intro es hp hne
    have hes : es = (activeIdx flags).map fun i => mkExp i (flags i) :=
      parseFlagsAux_shape flags _ es hp
    have hact : activeIdx flags ≠ [] := by
      intro h0
      apply hne
      rw [hes, h0]
      rfl
    refine ⟨_, by rw [hes]; exact CalculateChecksum_of_names dig flags hact, ?_⟩
    rw [hes, List.map_map, List.map_map]
    rfl
  · intro es hp hne
    exact ⟨_, verifyChecksum_ok dig flags es hp hne⟩

/-- Witness for C10 at a concrete flag array (one MD5 flag set). -/
theorem parse_canonical_alignment_witness :
    [mkExp (⟨1, by decide⟩ : Fin NumHash) ("12".toList)] = (activeIdx (singleFlag (⟨1, by decide⟩ : Fin NumHash) ("12".toList))).map
      (fun i => mkExp i (singleFlag (⟨1, by decide⟩ : Fin NumHash) ("12".toList) i)) ∧
    ∃ m, verifyChecksum (some fun _ => ("345".toList)) (singleFlag (⟨1, by decide⟩ : Fin NumHash) ("12".toList)) =
      some (m, none, false) :=
  ⟨(parse_canonical_alignment (fun _ => ("345".toList)) (singleFlag (⟨1, by decide⟩ : Fin NumHash) ("12".toList))).1
      [mkExp (⟨1, by decide⟩ : Fin NumHash) ("12".toList)] (by decide),
   (parse_canonical_alignment (fun _ => ("345".toList)) (singleFlag (⟨1, by decide⟩ : Fin NumHash) ("12".toList))).2.2
      [mkExp (⟨1, by decide⟩ : Fin NumHash) ("12".toList)] (by decide) (by decide)⟩

/-- C2: parsing one non-empty raw expression — the lowercased string is split
on the first occurrence of the literal marker `...` (marker absent: the whole
string is the prefix candidate and the suffix candidate is empty); splitting
commutes with per-candidate lowercasing; each candidate is then trimmed of
surrounding white space and stripped of an optional `0x`; parsing succeeds
returning the two processed candidates iff both contain only characters in
`[0-9a-f]`, and otherwise fails with an `invalidHex` error identifying the
offending part — prefix checked first — and echoing the pre-trim candidate. -/
theorem parse_expression_split_and_hex (raw pre suf : List Char) (f : Bool)
    (hraw : raw ≠ []) (hcut : cutDots (toLowerStr raw) = (pre, suf, f)) :
    (f = true → toLowerStr raw = pre ++ threeDots ++ suf ∧
      ∀ p' s' : List Char, toLowerStr raw = p' ++ threeDots ++ s' →
        pre.length ≤ p'.length) ∧
    (f = false → pre = toLowerStr raw ∧ suf = [] ∧
      ∀ p' s' : List Char, toLowerStr raw ≠ p' ++ threeDots ++ s') ∧
    (pre = toLowerStr (cutDots raw).1 ∧ suf = toLowerStr (cutDots raw).2.1) ∧
    (parseOneFlag raw = .ok (strip0x (trimSpace pre)) (strip0x (trimSpace suf)) ↔
      onlyLowerHex (strip0x (trimSpace pre)) = true ∧
        onlyLowerHex (strip0x (trimSpace suf)) = true) ∧
    (onlyLowerHex (strip0x (trimSpace pre)) = false →
      parseOneFlag raw = .invalidHex .pre pre) ∧
    (onlyLowerHex (strip0x (trimSpace pre)) = true →
      onlyLowerHex (strip0x (trimSpace suf)) = false →
      parseOneFlag raw = .invalidHex .suf suf) := by
  have hpre : (cutDots (toLowerStr raw)).1 = pre := by rw [hcut]
  have hsuf : (cutDots (toLowerStr raw)).2.1 = suf := by rw [hcut]
  have hf : (cutDots (toLowerStr raw)).2.2 = f := by rw [hcut]
  have hpfx : pfxOf raw = strip0x (trimSpace pre) := by rw [pfxOf, hpre]
  have hsfx : sfxOf raw = strip0x (trimSpace suf) := by rw [sfxOf, hsuf]
  refine ⟨?_, ?_, ?_, ?_, ?_, ?_⟩
  · intro hft
    constructor
    · have := cutDots_found (toLowerStr raw) (by rw [hf]; exact hft)
      rwa [hpre, hsuf] at this
    · intro p' s' hsplit
      have := cutDots_min (toLowerStr raw) p' s' hsplit
      rw [hpre] at this
      exact this.2
  · intro hff
    have hnn := cutDots_not_found (toLowerStr raw) (by rw [hf]; exact hff)
    refine ⟨by rw [← hpre]; exact hnn.1, by rw [← hsuf]; exact hnn.2, ?_⟩
    intro p' s' hsplit
    have hfound := (cutDots_min (toLowerStr raw) p' s' hsplit).1
    rw [hf, hff] at hfound
    exact Bool.false_ne_true hfound
  · have hcl := cutDots_toLower raw
    rw [hcut] at hcl
    rw [Prod.mk.injEq, Prod.mk.injEq] at hcl
    exact ⟨hcl.1, hcl.2.1⟩
  · constructor
    · intro hok
      obtain ⟨_, _, h1, h2⟩ := parseOneFlag_ok_eq raw _ _ hok
      rw [hpfx] at h1
      rw [hsfx] at h2
      exact ⟨(notLowerHexString_false_iff _).mp h1, (notLowerHexString_false_iff _).mp h2⟩
    · rintro ⟨h1, h2⟩
      have hok := (parseOneFlag_ok_iff raw).mpr
        ⟨by rw [hpfx]; exact (notLowerHexString_false_iff _).mpr h1,
         by rw [hsfx]; exact (notLowerHexString_false_iff _).mpr h2⟩
      rwa [hpfx, hsfx] at hok
  · intro hbad
    have h1 : notLowerHexString (pfxOf raw) = true := by
      rw [hpfx]
      cases hnl : notLowerHexString (strip0x (trimSpace pre)) with
      | true => rfl
      | false =>
        exfalso
        have hx := (notLowerHexString_false_iff _).mp hnl
        rw [hbad] at hx
        exact Bool.false_ne_true hx
    have := parseOneFlag_err_pre raw h1
    rwa [hpre] at this
  · intro hgood hbad
    have h1 : notLowerHexString (pfxOf raw) = false := by
      rw [hpfx]
      exact (notLowerHexString_false_iff _).mpr hgood
    have h2 : notLowerHexString (sfxOf raw) = true := by
      rw [hsfx]
      cases hnl : notLowerHexString (strip0x (trimSpace suf)) with
      | true => rfl
      | false =>
        exfalso
        have hx := (notLowerHexString_false_iff _).mp hnl
        rw [hbad] at hx
        exact Bool.false_ne_true hx
    have := parseOneFlag_err_suf raw h1 h2
    rwa [hsuf] at this

/-- Witness for C2 at the concrete expression `0x12...0X3g` (invalid suffix). -/
theorem parse_expression_split_and_hex_witness :
    (true = true → toLowerStr ("0x12...0X3g".toList) =
      ("0x12".toList) ++ threeDots ++ ("0x3g".toList) ∧
      ∀ p' s' : List Char, toLowerStr ("0x12...0X3g".toList) = p' ++ threeDots ++ s' →
        (("0x12".toList) : List Char).length ≤ p'.length) ∧
    (true = false → ("0x12".toList) = toLowerStr ("0x12...0X3g".toList) ∧
      ("0x3g".toList) = ([] : List Char) ∧
      ∀ p' s' : List Char, toLowerStr ("0x12...0X3g".toList) ≠ p' ++ threeDots ++ s') ∧
    (("0x12".toList) = toLowerStr (cutDots ("0x12...0X3g".toList)).1 ∧
      ("0x3g".toList) = toLowerStr (cutDots ("0x12...0X3g".toList)).2.1) ∧
    (parseOneFlag ("0x12...0X3g".toList) =
        .ok (strip0x (trimSpace ("0x12".toList))) (strip0x (trimSpace ("0x3g".toList))) ↔
      onlyLowerHex (strip0x (trimSpace ("0x12".toList))) = true ∧
        onlyLowerHex (strip0x (trimSpace ("0x3g".toList))) = true) ∧
    (onlyLowerHex (strip0x (trimSpace ("0x12".toList))) = false →
      parseOneFlag ("0x12...0X3g".toList) = .invalidHex .pre ("0x12".toList)) ∧
    (onlyLowerHex (strip0x (trimSpace ("0x12".toList))) = true →
      onlyLowerHex (strip0x (trimSpace ("0x3g".toList))) = false →
      parseOneFlag ("0x12...0X3g".toList) = .invalidHex .suf ("0x3g".toList)) :=
  parse_expression_split_and_hex ("0x12...0X3g".toList) ("0x12".toList) ("0x3g".toList) true
    (by decide) (by decide)

/-- C4 (round trip): for every lowercase-hex digest `D` and split point
`k ≤ len(D)`, the expression `D[:k] ++ "..." ++ D[k:]` parses to the pair
`(D[:k], D[k:])` and verifying it against the true digest `D` reports zero
mismatches; in particular the expression `...` alone (empty prefix and
suffix) verifies successfully against every digest. -/
theorem roundtrip_verify_ok (D : List Char) (hD : ∀ c ∈ D, isLowerHexChar c = true)
    (k : Nat) (hk : k ≤ D.length) (i : Fin NumHash) :
    parseOneFlag (D.take k ++ threeDots ++ D.drop k) = .ok (D.take k) (D.drop k) ∧
    verifyChecksum (some fun _ => D) (singleFlag i (D.take k ++ threeDots ++ D.drop k)) =
      some ([], none, false) ∧
    ∀ D' : List Char,
      verifyChecksum (some fun _ => D') (singleFlag i threeDots) =
        some ([], none, false) := by
  have htake : ∀ c ∈ D.take k, isLowerHexChar c = true :=
    fun c hc => hD c (List.mem_of_mem_take hc)
  have hdrop : ∀ c ∈ D.drop k, isLowerHexChar c = true :=
    fun c hc => hD c (List.mem_of_mem_drop hc)
  obtain ⟨hpfx, hsfx⟩ := pfx_sfx_of_hex_expr D hD k
  have h1 : notLowerHexString (pfxOf (D.take k ++ threeDots ++ D.drop k)) = false := by
    rw [hpfx]
    exact notLowerHexString_of_hex _ htake
  have h2 : notLowerHexString (sfxOf (D.take k ++ threeDots ++ D.drop k)) = false := by
    rw [hsfx]
    exact notLowerHexString_of_hex _ hdrop
  have hv : D.take k ++ threeDots ++ D.drop k ≠ [] := by
    intro hcon
    have := congrArg List.length hcon
    simp [threeDots] at this
  have hparse1 : parseOneFlag (D.take k ++ threeDots ++ D.drop k) =
      .ok (D.take k) (D.drop k) := by
    have := (parseOneFlag_ok_iff _).mpr ⟨h1, h2⟩
    rwa [hpfx, hsfx] at this
  refine ⟨hparse1, ?_, ?_⟩
  · have hmaster := verifyChecksum_ok (fun _ => D)
      (singleFlag i (D.take k ++ threeDots ++ D.drop k))
      [mkExp i (D.take k ++ threeDots ++ D.drop k)]
      (parse_singleFlag i _ hv h1 h2) (by simp)
    rw [hmaster, activeIdx_singleFlag i _ hv]
    have hchk : checkMatch
        (pfxOf (singleFlag i (D.take k ++ threeDots ++ D.drop k) i))
        (sfxOf (singleFlag i (D.take k ++ threeDots ++ D.drop k) i)) D = true := by
      have h0 : singleFlag i (D.take k ++ threeDots ++ D.drop k) i =
          D.take k ++ threeDots ++ D.drop k := by
        simp [singleFlag]
      rw [h0, hpfx, hsfx]
      exact checkMatch_take_drop D k hk
    simp only [List.append_assoc] at hchk
    rw [List.filter_cons_of_neg (by simp [hchk]), List.filter_nil, List.map_nil]
  · intro D'
    have hd1 : notLowerHexString (pfxOf threeDots) = false := by decide
    have hd2 : notLowerHexString (sfxOf threeDots) = false := by decide
    have hdv : threeDots ≠ [] := by decide
    have hmaster := verifyChecksum_ok (fun _ => D') (singleFlag i threeDots)
      [mkExp i threeDots] (parse_singleFlag i threeDots hdv hd1 hd2) (by simp)
    rw [hmaster, activeIdx_singleFlag i threeDots hdv]
    have hchk : checkMatch (pfxOf (singleFlag i threeDots i))
        (sfxOf (singleFlag i threeDots i)) D' = true := by
      have h0 : singleFlag i threeDots i = threeDots := by simp [singleFlag]
      have hp0 : pfxOf threeDots = [] := by decide
      have hs0 : sfxOf threeDots = [] := by decide
      rw [h0, hp0, hs0]
      exact checkMatch_nil_nil D'
    rw [List.filter_cons_of_neg (by simp [hchk]), List.filter_nil, List.map_nil]

/-- Witness for C4 at `D = "abc"`, `k = 1`, algorithm SHA-1. -/
theorem roundtrip_verify_ok_witness :
    parseOneFlag ((("abc".toList) : List Char).take 1 ++ threeDots ++
        (("abc".toList) : List Char).drop 1) =
      .ok ((("abc".toList) : List Char).take 1) ((("abc".toList) : List Char).drop 1) ∧
    verifyChecksum (some fun _ => ("abc".toList))
        (singleFlag (⟨2, by decide⟩ : Fin NumHash)
          ((("abc".toList) : List Char).take 1 ++ threeDots ++
            (("abc".toList) : List Char).drop 1)) =
      some ([], none, false) ∧
    ∀ D' : List Char,
      verifyChecksum (some fun _ => D')
          (singleFlag (⟨2, by decide⟩ : Fin NumHash) threeDots) =
        some ([], none, false) :=
  roundtrip_verify_ok ("abc".toList) (by decide) 1 (by decide)
    (⟨2, by decide⟩ : Fin NumHash)

/-- Witness for C3: the three error classes at concrete inputs — an invalid
hex flag, an all-empty flag array, and a failing file oracle. -/
theorem verify_error_classification_witness :
    verifyChecksum none (singleFlag (⟨0, by decide⟩ : Fin NumHash) ("zz".toList)) =
      some ([], some (.parseFailure ⟨⟨0, by decide⟩, .pre, ("zz".toList)⟩), true) ∧
    verifyChecksum none (fun _ => []) = some ([], some .checksumNotSpecified, true) ∧
    verifyChecksum none (singleFlag (⟨0, by decide⟩ : Fin NumHash) ("ab".toList)) =
      some ([], some (.calcFailure .ioError), false) :=
  ⟨(verify_error_classification none
      (singleFlag (⟨0, by decide⟩ : Fin NumHash) ("zz".toList))).1
      ⟨⟨0, by decide⟩, .pre, ("zz".toList)⟩ (by decide),
   (verify_error_classification none (fun _ => [])).2.1 (by decide),
   (verify_error_classification none
      (singleFlag (⟨0, by decide⟩ : Fin NumHash) ("ab".toList))).2.2
      [mkExp (⟨0, by decide⟩ : Fin NumHash) ("ab".toList)] .ioError
      (by decide) (by decide) (by decide)⟩

/-- Witness for C5: `[md5, m]` versus `[m, md5, md5]` (an alias, a
permutation and a duplicate) produce identical output, in registration
order. -/
theorem calculate_checksum_order_invariance_witness :
    CalculateChecksum (some fun _ => ("d1".toList)) [("md5".toList), ("m".toList)] =
      CalculateChecksum (some fun _ => ("d1".toList))
        [("m".toList), ("md5".toList), ("md5".toList)] ∧
    CalculateChecksum (some fun _ => ("d1".toList)) [("md5".toList), ("m".toList)] = .ok
      (((List.finRange NumHash).filter fun i =>
        decide ((i.val + 1) ∈ [("md5".toList), ("m".toList)].map nameRank)).map
        fun i => hcOf (fun _ => ("d1".toList)) i) :=
  calculate_checksum_order_invariance (fun _ => ("d1".toList))
    [("md5".toList), ("m".toList)] [("m".toList), ("md5".toList), ("md5".toList)]
    (by decide) (by decide) (by decide) (by decide) (by decide)

/-- Witness for C8: the unknown name `xyz`. -/
theorem calculate_checksum_unknown_name_witness :
    ∃ n ∈ [(("xyz".toList) : List Char)], nameRank n = 0 ∧
      CalculateChecksum (some fun _ => []) [("xyz".toList)] =
        .error (.unknownAlgorithm n) :=
  calculate_checksum_unknown_name (some fun _ => []) [("xyz".toList)] ("xyz".toList)
    (by decide) (by decide)

/-- Witness for C9: a prefix strictly longer than the digest yields a
mismatch without panicking. -/
theorem slice_safety_in_bounds_witness :
    mismatchCond ("abc".toList) [] ("ab".toList) =
      some (!(checkMatch ("abc".toList) [] ("ab".toList))) ∧
    mismatchCond ("abc".toList) [] ("ab".toList) = some true ∧
    verifyLoop [] [] ≠ none ∧
    verifyChecksum none (fun _ => []) ≠ none :=
  ⟨(slice_safety_in_bounds ("abc".toList) [] ("ab".toList) [] [] none (fun _ => [])).1,
   (slice_safety_in_bounds ("abc".toList) [] ("ab".toList) [] [] none (fun _ => [])).2.1
     (by decide),
   (slice_safety_in_bounds ("abc".toList) [] ("ab".toList) [] [] none (fun _ => [])).2.2.1,
   (slice_safety_in_bounds ("abc".toList) [] ("ab".toList) [] [] none (fun _ => [])).2.2.2⟩
